import Mathlib

/-!
Shallow embedding of the stock-screener core (`src/app.py`): Ichimoku cloud
construction, MACD momentum, the cloud-position evaluator `is_above_cloud`,
the per-ticker decision pipeline `is_bullish`, the scan coordinator `screen`,
and the ticker-symbol normalization of `get_sp500_tickers`.

Prices are modelled as rationals.  A pandas column is a `List (Option ℚ)`:
`none` stands for NaN (an undefined rolling/shifted value).  A provider fetch
(`yf.download`) is modelled as `Except Unit (List Bar)`: `Except.error ()` is a
raised exception, `Except.ok []` an empty frame.  Bars are listed in
chronological order; `iloc[-1]` is the list's last element.
-/

/-- One OHLC price bar (the fields the screener reads). -/
structure Bar where
  high : ℚ
  low : ℚ
  close : ℚ
deriving DecidableEq

/-- The `Close` column of a frame. -/
def closes (s : List Bar) : List ℚ := s.map Bar.close

/-- `df[col].rolling(w).max()`: at index `i` the maximum of the `w` trailing
values when `w` of them exist, NaN otherwise. -/
def rollingMax (w : Nat) (xs : List ℚ) : List (Option ℚ) :=
  (List.range xs.length).map (fun i =>
    if w ≤ i + 1 then ((xs.drop (i + 1 - w)).take w).max? else none)

/-- `df[col].rolling(w).min()`. -/
def rollingMin (w : Nat) (xs : List ℚ) : List (Option ℚ) :=
  (List.range xs.length).map (fun i =>
    if w ≤ i + 1 then ((xs.drop (i + 1 - w)).take w).min? else none)

/-- Elementwise `(a + b) / 2` on two columns; NaN when either side is NaN. -/
def omid : Option ℚ → Option ℚ → Option ℚ
  | some a, some b => some ((a + b) / 2)
  | _, _ => none

/-- `series.shift(d)`: values move `d` positions toward the end, the first `d`
positions become NaN, the frame's length is unchanged. -/
def shiftF (d : Nat) (xs : List (Option ℚ)) : List (Option ℚ) :=
  (List.replicate d none ++ xs).take xs.length

/-- `Tenkan = (High.rolling(9).max() + Low.rolling(9).min()) / 2`. -/
def tenkan (s : List Bar) : List (Option ℚ) :=
  List.zipWith omid (rollingMax 9 (s.map Bar.high)) (rollingMin 9 (s.map Bar.low))

/-- `Kijun = (High.rolling(26).max() + Low.rolling(26).min()) / 2`. -/
def kijun (s : List Bar) : List (Option ℚ) :=
  List.zipWith omid (rollingMax 26 (s.map Bar.high)) (rollingMin 26 (s.map Bar.low))

/-- `Senkou_A = ((Tenkan + Kijun) / 2).shift(26)`. -/
def senkouA (s : List Bar) : List (Option ℚ) :=
  shiftF 26 (List.zipWith omid (tenkan s) (kijun s))

/-- `Senkou_B = ((High.rolling(52).max() + Low.rolling(52).min()) / 2).shift(26)`. -/
def senkouB (s : List Bar) : List (Option ℚ) :=
  shiftF 26 (List.zipWith omid (rollingMax 52 (s.map Bar.high)) (rollingMin 52 (s.map Bar.low)))

/-- `column.iloc[-1]` read through `pd.isna`: the last entry, flattened. -/
def lastD (xs : List (Option ℚ)) : Option ℚ := xs.getLast?.join

/-- `is_above_cloud(df)`: `False` for fewer than 100 bars or an undefined
latest leading span, else `Close.iloc[-1] > max(Senkou_A[-1], Senkou_B[-1])`. -/
def is_above_cloud (s : List Bar) : Bool :=
  if s.length < 100 then false
  else
    match lastD (senkouA s), lastD (senkouB s), (closes s).getLast? with
    | some a, some b, some c => decide (max a b < c)
    | _, _, _ => false

/-- `ewm(span, adjust=False)` after the seed: each value is
`(1 - a) * prev + a * x` with the previous smoothed value threaded through. -/
def ewmFrom (a : ℚ) : ℚ → List ℚ → List ℚ
  | _, [] => []
  | prev, x :: xs => ((1 - a) * prev + a * x) :: ewmFrom a ((1 - a) * prev + a * x) xs

/-- `series.ewm(span=n, adjust=False).mean()`: seeded by the first value,
weight `a = 2 / (span + 1)`. -/
def ewm (span : Nat) : List ℚ → List ℚ
  | [] => []
  | x :: xs => x :: ewmFrom (2 / (span + 1)) x xs

/-- `MACD = Close.ewm(span=12).mean() - Close.ewm(span=26).mean()`. -/
def macd (cl : List ℚ) : List ℚ :=
  List.zipWith (fun a b => a - b) (ewm 12 cl) (ewm 26 cl)

/-- `MACD_Signal = MACD.ewm(span=9, adjust=False).mean()`. -/
def macdSignal (cl : List ℚ) : List ℚ := ewm 9 (macd cl)

/-- `(series.iloc[-2], series.iloc[-1])` when the series has two entries. -/
def last2 (xs : List ℚ) : Option (ℚ × ℚ) :=
  match xs.reverse with
  | a :: b :: _ => some (b, a)
  | _ => none

/-- The daily MACD bullish-cross test of `is_bullish`:
`MACD.iloc[-2] <= Signal.iloc[-2] and MACD.iloc[-1] > Signal.iloc[-1]`. -/
def macd_cross (cl : List ℚ) : Bool :=
  match last2 (macd cl), last2 (macdSignal cl) with
  | some p, some q => decide (p.1 ≤ q.1) && decide (q.2 < p.2)
  | _, _ => false

/-- `is_bullish(ticker)` with the three `yf.download` outcomes as arguments:
the `try` block's body, with the surrounding `except` mapping every provider
error to `False`. -/
def is_bullish (daily hourly minute : Except Unit (List Bar)) : Bool :=
  match daily with
  | Except.error _ => false
  | Except.ok d =>
    if d.isEmpty || d.length < 100 then false
    else
      let above_daily := is_above_cloud d
      match (macd (closes d)).getLast? with
      | none => false
      | some _ =>
        if !(above_daily && macd_cross (closes d)) then false
        else
          match hourly, minute with
          | Except.ok h, Except.ok m =>
            if h.isEmpty || m.isEmpty then false
            else is_above_cloud h && is_above_cloud m
          | _, _ => false

/-- How many times each of the three fetches was issued in one pipeline run. -/
structure FetchCounts where
  daily : Nat
  hourly : Nat
  minute : Nat
deriving DecidableEq

/-- `is_bullish` instrumented with fetch counts: the daily download is issued
once on entry; the hourly and minute downloads are issued (in that order) only
after the daily gate passes.  The verdict component equals `is_bullish`. -/
def is_bullish_traced (daily hourly minute : Except Unit (List Bar)) : Bool × FetchCounts :=
  match daily with
  | Except.error _ => (false, ⟨1, 0, 0⟩)
  | Except.ok d =>
    if d.isEmpty || d.length < 100 then (false, ⟨1, 0, 0⟩)
    else
      let above_daily := is_above_cloud d
      match (macd (closes d)).getLast? with
      | none => (false, ⟨1, 0, 0⟩)
      | some _ =>
        if !(above_daily && macd_cross (closes d)) then (false, ⟨1, 0, 0⟩)
        else
          match hourly, minute with
          | Except.ok h, Except.ok m =>
            if h.isEmpty || m.isEmpty then (false, ⟨1, 1, 1⟩)
            else (is_above_cloud h && is_above_cloud m, ⟨1, 1, 1⟩)
          | _, _ => (false, ⟨1, 1, 1⟩)

/-- The `/screen` endpoint's JSON payload (the scan-result fields). -/
structure ScanResult where
  bullish_stocks : List String
  count : Nat
  total_scanned : Nat
deriving DecidableEq

/-- The comparator under `bullish_stocks.sort()`. -/
def strLe (a b : String) : Bool := decide (a ≤ b)

/-- The `screen` route over an injected provider: every ticker runs through
`is_bullish`; the qualifying ones are collected and sorted.  The executor's
completion order only permutes the collected list, which the final sort
canonicalizes, so the aggregation is modelled directly on the universe order. -/
def screen (fetchDaily fetchHourly fetchMinute : String → Except Unit (List Bar))
    (tickers : List String) : ScanResult :=
  let bullish := (tickers.filter (fun t =>
    is_bullish (fetchDaily t) (fetchHourly t) (fetchMinute t))).mergeSort strLe
  { bullish_stocks := bullish
    count := bullish.length
    total_scanned := tickers.length }

/-- `ticker.replace('.', '-')` in `get_sp500_tickers`. -/
def normalize_symbol (s : String) : String :=
  String.mk (s.data.map (fun c => if c = '.' then '-' else c))

/-! ### Basic length and index facts about the embedded columns -/

theorem closes_length (s : List Bar) : (closes s).length = s.length := by
  simp [closes]

theorem rollingMax_length (w : Nat) (xs : List ℚ) :
    (rollingMax w xs).length = xs.length := by
  simp [rollingMax]

theorem rollingMin_length (w : Nat) (xs : List ℚ) :
    (rollingMin w xs).length = xs.length := by
  simp [rollingMin]

theorem shiftF_length (d : Nat) (xs : List (Option ℚ)) :
    (shiftF d xs).length = xs.length := by
  simp [shiftF]

theorem rollingMax_getElem? (w : Nat) (xs : List ℚ) (i : Nat) (h : i < xs.length) :
    (rollingMax w xs)[i]? =
      some (if w ≤ i + 1 then ((xs.drop (i + 1 - w)).take w).max? else none) := by
  simp [rollingMax, List.getElem?_map, List.getElem?_range h]

theorem rollingMin_getElem? (w : Nat) (xs : List ℚ) (i : Nat) (h : i < xs.length) :
    (rollingMin w xs)[i]? =
      some (if w ≤ i + 1 then ((xs.drop (i + 1 - w)).take w).min? else none) := by
  simp [rollingMin, List.getElem?_map, List.getElem?_range h]

theorem slice_max?_ne_none (w : Nat) (xs : List ℚ) (i : Nat)
    (hw : 1 ≤ w) (hwi : w ≤ i + 1) (h : i < xs.length) :
    ((xs.drop (i + 1 - w)).take w).max? ≠ none := by
  rw [Ne, List.max?_eq_none_iff, ← List.length_eq_zero]
  simp only [List.length_take, List.length_drop]
  omega

theorem slice_min?_ne_none (w : Nat) (xs : List ℚ) (i : Nat)
    (hw : 1 ≤ w) (hwi : w ≤ i + 1) (h : i < xs.length) :
    ((xs.drop (i + 1 - w)).take w).min? ≠ none := by
  rw [Ne, List.min?_eq_none_iff, ← List.length_eq_zero]
  simp only [List.length_take, List.length_drop]
  omega

theorem shiftF_getElem? (d : Nat) (xs : List (Option ℚ)) (i : Nat) :
    (shiftF d xs)[i]? =
      if i < xs.length then (if i < d then some none else xs[i - d]?) else none := by
  simp only [shiftF, List.getElem?_take, List.getElem?_append,
    List.length_replicate, List.getElem?_replicate]
  by_cases h1 : i < xs.length <;> by_cases h2 : i < d <;> simp [h1, h2]

/-- Pointwise form of zipping two columns that are maps over the same range. -/
theorem zipWith_omid_map_range (n : Nat) (F G : Nat → Option ℚ) :
    List.zipWith omid ((List.range n).map F) ((List.range n).map G)
      = (List.range n).map (fun i => omid (F i) (G i)) := by
  rw [List.zipWith_map, List.zipWith_same]

theorem rollingMax_eq_map (w : Nat) (xs : List ℚ) :
    rollingMax w xs = (List.range xs.length).map (fun i =>
      if w ≤ i + 1 then ((xs.drop (i + 1 - w)).take w).max? else none) := rfl

theorem rollingMin_eq_map (w : Nat) (xs : List ℚ) :
    rollingMin w xs = (List.range xs.length).map (fun i =>
      if w ≤ i + 1 then ((xs.drop (i + 1 - w)).take w).min? else none) := rfl

theorem shiftF_map_range (d n : Nat) (H : Nat → Option ℚ) :
    shiftF d ((List.range n).map H)
      = (List.range n).map (fun i => if i < d then none else H (i - d)) := by
  apply List.ext_getElem?
  intro i
  rw [shiftF_getElem?]
  by_cases h : i < n
  · simp only [List.getElem?_map, List.getElem?_range h, List.length_map,
      List.length_range, h, if_true]
    by_cases h2 : i < d
    · simp [h2]
    · simp [h2, List.getElem?_range (show i - d < n by omega)]
  · have hlen : ((List.range n).map H).length ≤ i := by simp; omega
    have hlen2 : ((List.range n).map
        (fun i => if i < d then none else H (i - d))).length ≤ i := by simp; omega
    simp only [List.getElem?_eq_none hlen, List.getElem?_eq_none hlen2]
    simp
    omega

/-! ### Pointwise characterization of the cloud columns -/

theorem tenkan_length (s : List Bar) : (tenkan s).length = s.length := by
  simp [tenkan, rollingMax_length, rollingMin_length]

theorem kijun_length (s : List Bar) : (kijun s).length = s.length := by
  simp [kijun, rollingMax_length, rollingMin_length]

theorem senkouA_length (s : List Bar) : (senkouA s).length = s.length := by
  simp [senkouA, shiftF_length, tenkan_length, kijun_length]

theorem senkouB_length (s : List Bar) : (senkouB s).length = s.length := by
  simp [senkouB, shiftF_length, rollingMax_length, rollingMin_length]

theorem senkouB_eq_map (s : List Bar) :
    senkouB s = (List.range s.length).map (fun i =>
      if i < 26 then none
      else if 52 ≤ (i - 26) + 1 then
        omid (((s.map Bar.high).drop ((i - 26) + 1 - 52)).take 52).max?
             (((s.map Bar.low).drop ((i - 26) + 1 - 52)).take 52).min?
      else none) := by
  unfold senkouB
  rw [rollingMax_eq_map, rollingMin_eq_map]
  simp only [List.length_map]
  rw [zipWith_omid_map_range, shiftF_map_range]
  congr 1
  funext i
  by_cases h1 : i < 26
  · simp [h1]
  · by_cases h2 : 52 ≤ (i - 26) + 1 <;> simp [h1, h2, omid]

theorem tenkan_kijun_mid_eq_map (s : List Bar) :
    List.zipWith omid (tenkan s) (kijun s) = (List.range s.length).map (fun i =>
      if 26 ≤ i + 1 then
        omid (omid (((s.map Bar.high).drop (i + 1 - 9)).take 9).max?
                   (((s.map Bar.low).drop (i + 1 - 9)).take 9).min?)
             (omid (((s.map Bar.high).drop (i + 1 - 26)).take 26).max?
                   (((s.map Bar.low).drop (i + 1 - 26)).take 26).min?)
      else none) := by
  unfold tenkan kijun
  rw [rollingMax_eq_map, rollingMin_eq_map, rollingMax_eq_map, rollingMin_eq_map]
  simp only [List.length_map]
  rw [zipWith_omid_map_range, zipWith_omid_map_range, zipWith_omid_map_range]
  congr 1
  funext i
  by_cases h1 : 26 ≤ i + 1
  · have h2 : 9 ≤ i + 1 := by omega
    simp [h1, h2]
  · by_cases h2 : 9 ≤ i + 1 <;> simp [h1, h2, omid]

theorem senkouA_eq_map (s : List Bar) :
    senkouA s = (List.range s.length).map (fun i =>
      if i < 26 then none
      else if 26 ≤ (i - 26) + 1 then
        omid (omid (((s.map Bar.high).drop ((i - 26) + 1 - 9)).take 9).max?
                   (((s.map Bar.low).drop ((i - 26) + 1 - 9)).take 9).min?)
             (omid (((s.map Bar.high).drop ((i - 26) + 1 - 26)).take 26).max?
                   (((s.map Bar.low).drop ((i - 26) + 1 - 26)).take 26).min?)
      else none) := by
  unfold senkouA
  rw [tenkan_kijun_mid_eq_map, shiftF_map_range]

theorem senkouB_getElem?_undefined (s : List Bar) (i : Nat)
    (h : i < s.length) (h77 : i < 77) : (senkouB s)[i]? = some none := by
  rw [senkouB_eq_map]
  simp only [List.getElem?_map, List.getElem?_range h, Option.map_some']
  by_cases h1 : i < 26
  · rw [if_pos h1]
  · have h2 : ¬ 52 ≤ (i - 26) + 1 := by omega
    rw [if_neg h1, if_neg h2]

theorem senkouB_getElem?_defined (s : List Bar) (i : Nat)
    (h : i < s.length) (h77 : 77 ≤ i) : ∃ q, (senkouB s)[i]? = some (some q) := by
  rw [senkouB_eq_map]
  simp only [List.getElem?_map, List.getElem?_range h, Option.map_some']
  have h1 : ¬ i < 26 := by omega
  have h2 : 52 ≤ (i - 26) + 1 := by omega
  have hlen : i - 26 < (s.map Bar.high).length := by simp; omega
  have hlen2 : i - 26 < (s.map Bar.low).length := by simp; omega
  obtain ⟨a, ha⟩ := Option.ne_none_iff_exists'.mp
    (slice_max?_ne_none 52 (s.map Bar.high) (i - 26) (by omega) h2 hlen)
  obtain ⟨b, hb⟩ := Option.ne_none_iff_exists'.mp
    (slice_min?_ne_none 52 (s.map Bar.low) (i - 26) (by omega) h2 hlen2)
  refine ⟨(a + b) / 2, ?_⟩
  rw [if_neg h1, if_pos h2, ha, hb]
  rfl

theorem senkouA_getElem?_undefined (s : List Bar) (i : Nat)
    (h : i < s.length) (h51 : i < 51) : (senkouA s)[i]? = some none := by
  rw [senkouA_eq_map]
  simp only [List.getElem?_map, List.getElem?_range h, Option.map_some']
  by_cases h1 : i < 26
  · rw [if_pos h1]
  · have h2 : ¬ 26 ≤ (i - 26) + 1 := by omega
    rw [if_neg h1, if_neg h2]

theorem senkouA_getElem?_defined (s : List Bar) (i : Nat)
    (h : i < s.length) (h51 : 51 ≤ i) : ∃ q, (senkouA s)[i]? = some (some q) := by
  rw [senkouA_eq_map]
  simp only [List.getElem?_map, List.getElem?_range h, Option.map_some']
  have h1 : ¬ i < 26 := by omega
  have h2 : 26 ≤ (i - 26) + 1 := by omega
  have h9 : 9 ≤ (i - 26) + 1 := by omega
  have hlenh : i - 26 < (s.map Bar.high).length := by simp; omega
  have hlenl : i - 26 < (s.map Bar.low).length := by simp; omega
  obtain ⟨a9, ha9⟩ := Option.ne_none_iff_exists'.mp
    (slice_max?_ne_none 9 (s.map Bar.high) (i - 26) (by omega) h9 hlenh)
  obtain ⟨b9, hb9⟩ := Option.ne_none_iff_exists'.mp
    (slice_min?_ne_none 9 (s.map Bar.low) (i - 26) (by omega) h9 hlenl)
  obtain ⟨a26, ha26⟩ := Option.ne_none_iff_exists'.mp
    (slice_max?_ne_none 26 (s.map Bar.high) (i - 26) (by omega) h2 hlenh)
  obtain ⟨b26, hb26⟩ := Option.ne_none_iff_exists'.mp
    (slice_min?_ne_none 26 (s.map Bar.low) (i - 26) (by omega) h2 hlenl)
  refine ⟨((a9 + b9) / 2 + (a26 + b26) / 2) / 2, ?_⟩
  rw [if_neg h1, if_pos h2, ha9, hb9, ha26, hb26]
  rfl

theorem lastD_senkouA_defined (s : List Bar) (h : 52 ≤ s.length) :
    ∃ q, lastD (senkouA s) = some q := by
  obtain ⟨q, hq⟩ := senkouA_getElem?_defined s (s.length - 1) (by omega) (by omega)
  refine ⟨q, ?_⟩
  rw [lastD, List.getLast?_eq_getElem?, senkouA_length, hq]
  rfl

theorem lastD_senkouB_defined (s : List Bar) (h : 78 ≤ s.length) :
    ∃ q, lastD (senkouB s) = some q := by
  obtain ⟨q, hq⟩ := senkouB_getElem?_defined s (s.length - 1) (by omega) (by omega)
  refine ⟨q, ?_⟩
  rw [lastD, List.getLast?_eq_getElem?, senkouB_length, hq]
  rfl

/-! ### Constant (flat) series: every derived indicator value is explicit -/

/-- A bar whose high, low and close all equal `c`. -/
def constBar (c : ℚ) : Bar := ⟨c, c, c⟩

/-- A flat price series of `n` identical bars. -/
def constSeries (n : Nat) (c : ℚ) : List Bar := List.replicate n (constBar c)

theorem rollingMax_replicate (w n : Nat) (c : ℚ) (hw : 1 ≤ w) :
    rollingMax w (List.replicate n c)
      = (List.range n).map (fun i => if w ≤ i + 1 then some c else none) := by
  rw [rollingMax_eq_map]
  simp only [List.length_replicate]
  apply List.map_congr_left
  intro i hi
  rw [List.mem_range] at hi
  by_cases hcond : w ≤ i + 1
  · rw [if_pos hcond, if_pos hcond, List.drop_replicate, List.take_replicate]
    have hmin : w ⊓ (n - (i + 1 - w)) = w := by omega
    rw [hmin, List.max?_replicate (max_self c), if_neg (by omega)]
  · rw [if_neg hcond, if_neg hcond]

theorem rollingMin_replicate (w n : Nat) (c : ℚ) (hw : 1 ≤ w) :
    rollingMin w (List.replicate n c)
      = (List.range n).map (fun i => if w ≤ i + 1 then some c else none) := by
  rw [rollingMin_eq_map]
  simp only [List.length_replicate]
  apply List.map_congr_left
  intro i hi
  rw [List.mem_range] at hi
  by_cases hcond : w ≤ i + 1
  · rw [if_pos hcond, if_pos hcond, List.drop_replicate, List.take_replicate]
    have hmin : w ⊓ (n - (i + 1 - w)) = w := by omega
    rw [hmin, List.min?_replicate (min_self c), if_neg (by omega)]
  · rw [if_neg hcond, if_neg hcond]

theorem omid_same (c : ℚ) : omid (some c) (some c) = some c := by
  show some ((c + c) / 2) = some c
  norm_num [add_self_div_two]

theorem senkouB_constSeries (n : Nat) (c : ℚ) :
    senkouB (constSeries n c)
      = (List.range n).map (fun i => if 77 ≤ i then some c else none) := by
  rw [senkouB_eq_map]
  simp only [constSeries, List.map_replicate, List.length_replicate]
  apply List.map_congr_left
  intro i hi
  rw [List.mem_range] at hi
  by_cases h1 : i < 26
  · rw [if_pos h1, if_neg (by omega)]
  · by_cases h2 : 52 ≤ (i - 26) + 1
    · have h77 : 77 ≤ i := by omega
      have hmin : 52 ⊓ (n - (i - 26 + 1 - 52)) = 52 := by omega
      rw [if_neg h1, if_pos h2]
      simp only [constBar, List.drop_replicate, List.take_replicate, hmin,
        List.max?_replicate (max_self c), List.min?_replicate (min_self c)]
      simp [h77, omid_same c]
    · rw [if_neg h1, if_neg h2, if_neg (by omega)]

theorem senkouA_constSeries (n : Nat) (c : ℚ) :
    senkouA (constSeries n c)
      = (List.range n).map (fun i => if 51 ≤ i then some c else none) := by
  rw [senkouA_eq_map]
  simp only [constSeries, List.map_replicate, List.length_replicate]
  apply List.map_congr_left
  intro i hi
  rw [List.mem_range] at hi
  by_cases h1 : i < 26
  · rw [if_pos h1, if_neg (by omega)]
  · by_cases h2 : 26 ≤ (i - 26) + 1
    · have h51 : 51 ≤ i := by omega
      have hmin9 : 9 ⊓ (n - (i - 26 + 1 - 9)) = 9 := by omega
      have hmin26 : 26 ⊓ (n - (i - 26 + 1 - 26)) = 26 := by omega
      rw [if_neg h1, if_pos h2]
      simp only [constBar, List.drop_replicate, List.take_replicate, hmin9, hmin26,
        List.max?_replicate (max_self c), List.min?_replicate (min_self c)]
      simp [h51, omid_same c]
    · rw [if_neg h1, if_neg h2, if_neg (by omega)]

theorem lastD_map_range (n : Nat) (F : Nat → Option ℚ) (h : 1 ≤ n) :
    lastD ((List.range n).map F) = F (n - 1) := by
  rw [lastD, List.getLast?_eq_getElem?]
  simp only [List.length_map, List.length_range]
  rw [List.getElem?_map, List.getElem?_range (by omega : n - 1 < n)]
  rfl

theorem closes_constSeries (n : Nat) (c : ℚ) :
    closes (constSeries n c) = List.replicate n c := by
  simp [closes, constSeries, List.map_replicate, constBar]

theorem is_above_cloud_constSeries (n : Nat) (c : ℚ) (h : 100 ≤ n) :
    is_above_cloud (constSeries n c) = false := by
  unfold is_above_cloud
  have hlen : (constSeries n c).length = n := by simp [constSeries]
  rw [hlen, if_neg (by omega)]
  rw [senkouA_constSeries, senkouB_constSeries, lastD_map_range n _ (by omega),
    lastD_map_range n _ (by omega), closes_constSeries,
    List.getLast?_replicate, if_neg (by omega : ¬ n = 0),
    if_pos (by omega : 51 ≤ n - 1), if_pos (by omega : 77 ≤ n - 1)]
  simp

/-! ### Exponential smoothing: lengths and flat-series values -/

theorem ewmFrom_length (a : ℚ) (p : ℚ) (xs : List ℚ) :
    (ewmFrom a p xs).length = xs.length := by
  induction xs generalizing p with
  | nil => rfl
  | cons x xs ih => simp [ewmFrom, ih]

theorem ewm_length (span : Nat) (xs : List ℚ) : (ewm span xs).length = xs.length := by
  cases xs with
  | nil => rfl
  | cons x xs => simp [ewm, ewmFrom_length]

theorem macd_length (cl : List ℚ) : (macd cl).length = cl.length := by
  simp [macd, List.length_zipWith, ewm_length]

theorem macdSignal_length (cl : List ℚ) : (macdSignal cl).length = cl.length := by
  simp [macdSignal, ewm_length, macd_length]

theorem ewmFrom_replicate (a : ℚ) (k : Nat) (c : ℚ) :
    ewmFrom a c (List.replicate k c) = List.replicate k c := by
  induction k with
  | zero => rfl
  | succ k ih =>
    rw [List.replicate_succ, ewmFrom]
    have hc : (1 - a) * c + a * c = c := by ring
    rw [hc, ih]

theorem ewm_replicate (span : Nat) (n : Nat) (c : ℚ) :
    ewm span (List.replicate n c) = List.replicate n c := by
  cases n with
  | zero => rfl
  | succ n =>
    rw [List.replicate_succ, ewm, ewmFrom_replicate]

theorem macd_replicate (n : Nat) (c : ℚ) :
    macd (List.replicate n c) = List.replicate n 0 := by
  rw [macd, ewm_replicate, ewm_replicate, List.zipWith_same, List.map_replicate, sub_self]

theorem macdSignal_replicate (n : Nat) (c : ℚ) :
    macdSignal (List.replicate n c) = List.replicate n 0 := by
  rw [macdSignal, macd_replicate, ewm_replicate]

theorem last2_replicate (n : Nat) (c : ℚ) (h : 2 ≤ n) :
    last2 (List.replicate n c) = some (c, c) := by
  obtain ⟨k, hk⟩ := Nat.exists_eq_add_of_le h
  subst hk
  rw [last2, List.reverse_replicate]
  rw [show 2 + k = (k + 1) + 1 by omega, List.replicate_succ, List.replicate_succ]

theorem macd_cross_replicate (n : Nat) (c : ℚ) (h : 2 ≤ n) :
    macd_cross (List.replicate n c) = false := by
  rw [macd_cross, macd_replicate, macdSignal_replicate, last2_replicate n 0 h]
  simp

/-! ### Characterization of the cloud-position evaluator -/

theorem is_above_cloud_iff (s : List Bar) :
    is_above_cloud s = true ↔
      100 ≤ s.length ∧ ∃ a b c, lastD (senkouA s) = some a ∧ lastD (senkouB s) = some b
        ∧ (closes s).getLast? = some c ∧ max a b < c := by
  unfold is_above_cloud
  by_cases hl : s.length < 100
  · simp only [if_pos hl]
    constructor
    · intro hfalse
      exact absurd hfalse (by simp)
    · intro hcontra
      omega
  · rw [if_neg hl]
    cases hA : lastD (senkouA s) with
    | none =>
      simp [hA]
    | some a =>
      cases hB : lastD (senkouB s) with
      | none => simp [hA, hB]
      | some b =>
        cases hC : (closes s).getLast? with
        | none => simp [hA, hB, hC]
        | some c =>
          simp only [hA, hB, hC, decide_eq_true_eq, Option.some.injEq]
          constructor
          · intro hlt
            exact ⟨by omega, a, b, c, rfl, rfl, rfl, hlt⟩
          · rintro ⟨-, a', b', c', ha', hb', hc', hlt⟩
            subst ha'
            subst hb'
            subst hc'
            exact hlt

/-- C2: the Cloud-Position Evaluator returns false when the series has fewer
than 100 bars or the latest leading span A or B is undefined; otherwise it
returns true iff the latest close strictly exceeds the larger latest span. -/
theorem C2_cloud_position_contract (s : List Bar) :
    (s.length < 100 → is_above_cloud s = false)
    ∧ (lastD (senkouA s) = none ∨ lastD (senkouB s) = none → is_above_cloud s = false)
    ∧ (100 ≤ s.length → ∀ a b c, lastD (senkouA s) = some a → lastD (senkouB s) = some b →
        (closes s).getLast? = some c →
        (is_above_cloud s = true ↔ max a b < c)) := by
  refine ⟨?_, ?_, ?_⟩
  · intro hshort
    cases hval : is_above_cloud s with
    | false => rfl
    | true =>
      have := (is_above_cloud_iff s).mp hval
      omega
  · intro hnone
    cases hval : is_above_cloud s with
    | false => rfl
    | true =>
      obtain ⟨-, a, b, c, ha, hb, -, -⟩ := (is_above_cloud_iff s).mp hval
      rcases hnone with hn | hn
      · rw [hn] at ha
        exact absurd ha (by simp)
      · rw [hn] at hb
        exact absurd hb (by simp)
  · intro hlen a b c ha hb hc
    rw [is_above_cloud_iff]
    constructor
    · rintro ⟨-, a', b', c', ha', hb', hc', hlt⟩
      rw [ha] at ha'
      rw [hb] at hb'
      rw [hc] at hc'
      cases ha'
      cases hb'
      cases hc'
      exact hlt
    · intro hlt
      exact ⟨hlen, a, b, c, ha, hb, hc, hlt⟩

/-- Witness for C2 at concrete inputs: the empty series (too short, spans
undefined) and a flat 102-bar series at price 5 (spans defined and equal 5). -/
theorem C2_cloud_position_contract_witness :
    is_above_cloud [] = false
    ∧ is_above_cloud [] = false
    ∧ (is_above_cloud (constSeries 102 5) = true ↔ max (5 : ℚ) 5 < 5) := by
  refine ⟨(C2_cloud_position_contract []).1 (by simp),
    (C2_cloud_position_contract []).2.1 (Or.inl rfl), ?_⟩
  have h1 : lastD (senkouA (constSeries 102 5)) = some 5 := by
    rw [senkouA_constSeries, lastD_map_range 102 _ (by omega)]
    rfl
  have h2 : lastD (senkouB (constSeries 102 5)) = some 5 := by
    rw [senkouB_constSeries, lastD_map_range 102 _ (by omega)]
    rfl
  have h3 : (closes (constSeries 102 5)).getLast? = some 5 := by
    rw [closes_constSeries, List.getLast?_replicate]
    rfl
  exact (C2_cloud_position_contract (constSeries 102 5)).2.2 (by simp [constSeries]) 5 5 5 h1 h2 h3

/-- C8: on a flat series (every close one constant), the exponential averages
equal the constant at every bar, so the oscillator and its signal line are
exactly 0 at every bar (hence they trivially converge to 0 as history grows). -/
theorem C8_flat_series_oscillator_zero (s : List Bar) (c : ℚ)
    (h : closes s = List.replicate s.length c) :
    ewm 12 (closes s) = List.replicate s.length c
    ∧ ewm 26 (closes s) = List.replicate s.length c
    ∧ macd (closes s) = List.replicate s.length 0
    ∧ macdSignal (closes s) = List.replicate s.length 0 := by
  rw [h, ewm_replicate, ewm_replicate, macd_replicate, macdSignal_replicate]
  exact ⟨rfl, rfl, rfl, rfl⟩

/-- Witness for C8: a flat three-bar series at price 5. -/
theorem C8_flat_series_oscillator_zero_witness :
    ewm 12 (closes (constSeries 3 5)) = List.replicate (constSeries 3 5).length 5
    ∧ ewm 26 (closes (constSeries 3 5)) = List.replicate (constSeries 3 5).length 5
    ∧ macd (closes (constSeries 3 5)) = List.replicate (constSeries 3 5).length 0
    ∧ macdSignal (closes (constSeries 3 5)) = List.replicate (constSeries 3 5).length 0 :=
  C8_flat_series_oscillator_zero (constSeries 3 5) 5 (by rw [closes_constSeries]; rfl)

/-- C9: symbol normalization maps every '.' to '-' (pointwise on characters),
is idempotent, and fixes any symbol containing no '.'. -/
theorem C9_normalize_symbol_spec (s : String) :
    normalize_symbol (normalize_symbol s) = normalize_symbol s
    ∧ ((∀ c ∈ s.data, c ≠ '.') → normalize_symbol s = s)
    ∧ (∀ i : Nat, (normalize_symbol s).data[i]?
        = (s.data[i]?).map (fun c => if c = '.' then '-' else c)) := by
  refine ⟨?_, ?_, ?_⟩
  · show String.mk ((s.data.map _).map _) = String.mk (s.data.map _)
    rw [List.map_map]
    congr 1
    apply List.map_congr_left
    intro c _
    by_cases hc : c = '.'
    · simp [hc, Function.comp]
    · simp [hc, Function.comp]
  · intro hno
    show String.mk (s.data.map _) = s
    have : s.data.map (fun c => if c = '.' then '-' else c) = s.data := by
      rw [show s.data.map (fun c => if c = '.' then '-' else c)
            = s.data.map (fun c => c) from List.map_congr_left (by
          intro c hc
          simp [hno c hc])]
      simp
    rw [this]
  · intro i
    show (s.data.map _)[i]? = _
    rw [List.getElem?_map]

/-- Witness for C9: a dotted and a dot-free ticker symbol. -/
theorem C9_normalize_symbol_spec_witness :
    normalize_symbol (normalize_symbol "BRK.B") = normalize_symbol "BRK.B"
    ∧ normalize_symbol "AAPL" = "AAPL" := by
  exact ⟨(C9_normalize_symbol_spec "BRK.B").1,
    (C9_normalize_symbol_spec "AAPL").2.1 (by decide)⟩

/-! ### Characterization of the decision pipeline -/

theorem is_bullish_iff (daily hourly minute : Except Unit (List Bar)) :
    is_bullish daily hourly minute = true ↔
      ∃ d h m, daily = Except.ok d ∧ hourly = Except.ok h ∧ minute = Except.ok m
        ∧ d ≠ [] ∧ 100 ≤ d.length
        ∧ ((macd (closes d)).getLast?).isSome = true
        ∧ is_above_cloud d = true ∧ macd_cross (closes d) = true
        ∧ h ≠ [] ∧ m ≠ []
        ∧ is_above_cloud h = true ∧ is_above_cloud m = true := by
  unfold is_bullish
  rcases daily with e | d
  · simp
  · simp only [Except.ok.injEq]
    by_cases hL : d.length < 100
    · have hcond : (d.isEmpty || decide (d.length < 100)) = true := by
        simp [hL]
      rw [if_pos hcond]
      constructor
      · intro hfalse
        exact absurd hfalse (by simp)
      · rintro ⟨d', h', m', hd, -, -, -, hlen, -⟩
        subst hd
        omega
    · have hdne : d ≠ [] := by
        intro hnil
        rw [hnil] at hL
        simp at hL
      have hcond : (d.isEmpty || decide (d.length < 100)) = false := by
        simp [hL, List.isEmpty_iff, hdne]
      rw [if_neg (by rw [hcond]; exact Bool.false_ne_true)]
      cases hG : (macd (closes d)).getLast? with
      | none =>
        constructor
        · intro hfalse
          exact absurd hfalse (by simp)
        · rintro ⟨d', h', m', hd, -, -, -, -, hsome, -⟩
          subst hd
          rw [hG] at hsome
          exact absurd hsome (by simp)
      | some v =>
        by_cases hgate : is_above_cloud d && macd_cross (closes d)
        · rw [if_neg (by simp [hgate])]
          rw [Bool.and_eq_true] at hgate
          rcases hourly with e2 | hh
          · constructor
            · intro hfalse
              exact absurd hfalse (by simp)
            · rintro ⟨d', h', m', -, hh', -⟩
              exact absurd hh' (by simp)
          · dsimp only
            rcases minute with e3 | mm
            · constructor
              · intro hfalse
                exact absurd hfalse (by simp)
              · rintro ⟨d', h', m', -, -, hm', -⟩
                exact absurd hm' (by simp)
            · dsimp only
              by_cases hHM : hh.isEmpty || mm.isEmpty
              · rw [if_pos hHM]
                rcases Bool.or_eq_true_iff.mp hHM with hE | hE
                · constructor
                  · intro hfalse
                    exact absurd hfalse (by simp)
                  · rintro ⟨d', h', m', -, hh', -, -, -, -, -, -, hhe, -⟩
                    cases hh'
                    rw [List.isEmpty_iff] at hE
                    exact absurd hE hhe
                · constructor
                  · intro hfalse
                    exact absurd hfalse (by simp)
                  · rintro ⟨d', h', m', -, -, hm', -, -, -, -, -, -, hme, -⟩
                    cases hm'
                    rw [List.isEmpty_iff] at hE
                    exact absurd hE hme
              · rw [if_neg hHM]
                rw [Bool.not_eq_true, Bool.or_eq_false_iff] at hHM
                constructor
                · intro hab
                  rw [Bool.and_eq_true] at hab
                  refine ⟨d, hh, mm, rfl, rfl, rfl, hdne, by omega, by rw [hG]; rfl,
                    hgate.1, hgate.2, ?_, ?_, hab.1, hab.2⟩
                  · intro hnil
                    rw [hnil] at hHM
                    simp at hHM
                  · intro hnil
                    rw [hnil] at hHM
                    simp at hHM
                · rintro ⟨d', h', m', hd, hh', hm', -, -, -, -, -, -, -, hch, hcm⟩
                  cases hh'
                  cases hm'
                  rw [Bool.and_eq_true]
                  exact ⟨hch, hcm⟩
        · rw [if_pos (by simp [hgate])]
          constructor
          · intro hfalse
            exact absurd hfalse (by simp)
          · rintro ⟨d', h', m', hd, -, -, -, -, -, hcd, hcr, -⟩
            subst hd
            rw [Bool.and_eq_true] at hgate
            exact absurd ⟨hcd, hcr⟩ hgate

/-- C1: the pipeline returns QUALIFIES (true) iff the daily fetch yields a
non-empty series of at least 100 bars, the daily cloud-position check passes,
the latest daily oscillator value is defined, the momentum cross holds on the
latest bar transition, the hourly and minute fetches both yield non-empty
series, and the cloud-position check passes on both; in every other case it
returns DOES-NOT-QUALIFY (false). -/
theorem C1_decision_pipeline_iff (daily hourly minute : Except Unit (List Bar)) :
    is_bullish daily hourly minute = true ↔
      ∃ d h m, daily = Except.ok d ∧ hourly = Except.ok h ∧ minute = Except.ok m
        ∧ d ≠ [] ∧ 100 ≤ d.length
        ∧ ((macd (closes d)).getLast?).isSome = true
        ∧ is_above_cloud d = true ∧ macd_cross (closes d) = true
        ∧ h ≠ [] ∧ m ≠ []
        ∧ is_above_cloud h = true ∧ is_above_cloud m = true :=
  is_bullish_iff daily hourly minute

/-- C3: the pipeline is a total boolean function that absorbs provider errors:
when any fetch outcome is a raised exception (`Except.error`), the verdict is
`false` rather than a propagated error, and both the pipeline and the
cloud-position evaluator always land on a definite boolean. -/
theorem C3_no_exception_escapes (daily hourly minute : Except Unit (List Bar)) :
    ((daily.isOk = false ∨ hourly.isOk = false ∨ minute.isOk = false) →
      is_bullish daily hourly minute = false)
    ∧ (is_bullish daily hourly minute = false ∨ is_bullish daily hourly minute = true)
    ∧ (∀ s : List Bar, is_above_cloud s = false ∨ is_above_cloud s = true) := by
  refine ⟨?_, ?_, fun s => ?_⟩
  · intro herr
    cases hval : is_bullish daily hourly minute with
    | false => rfl
    | true =>
      obtain ⟨d, h, m, hd, hh, hm, -⟩ := (is_bullish_iff daily hourly minute).mp hval
      subst hd
      subst hh
      subst hm
      rcases herr with he | he | he <;> exact absurd he (by simp [Except.isOk, Except.toBool])
  · cases is_bullish daily hourly minute
    · exact Or.inl rfl
    · exact Or.inr rfl
  · cases is_above_cloud s
    · exact Or.inl rfl
    · exact Or.inr rfl

/-- Witness for C3: all three fetches raise; the verdict is still `false`. -/
theorem C3_no_exception_escapes_witness :
    is_bullish (Except.error ()) (Except.error ()) (Except.error ()) = false :=
  (C3_no_exception_escapes (Except.error ()) (Except.error ()) (Except.error ())).1
    (Or.inl rfl)

/-- Unfolding equation of `is_bullish_traced` on a successful daily fetch. -/
theorem is_bullish_traced_ok_eq (d : List Bar) (hourly minute : Except Unit (List Bar)) :
    is_bullish_traced (Except.ok d) hourly minute =
      if (d.isEmpty || decide (d.length < 100)) = true then (false, ⟨1, 0, 0⟩)
      else
        match (macd (closes d)).getLast? with
        | none => (false, ⟨1, 0, 0⟩)
        | some _ =>
          if (!(is_above_cloud d && macd_cross (closes d))) = true then (false, ⟨1, 0, 0⟩)
          else
            match hourly, minute with
            | Except.ok h, Except.ok m =>
              if (h.isEmpty || m.isEmpty) = true then (false, ⟨1, 1, 1⟩)
              else (is_above_cloud h && is_above_cloud m, ⟨1, 1, 1⟩)
            | _, _ => (false, ⟨1, 1, 1⟩) := rfl

/-- C4: on a failing daily check (fetch error, empty frame, fewer than 100
bars, or a false above-cloud AND momentum-cross conjunction), the pipeline
issues the daily fetch exactly once and the hourly and minute fetches zero
times, returning DOES-NOT-QUALIFY. -/
theorem C4_short_circuit_fetch_counts (daily hourly minute : Except Unit (List Bar))
    (hfail : ∀ d, daily = Except.ok d →
      d = [] ∨ d.length < 100 ∨ ¬(is_above_cloud d = true ∧ macd_cross (closes d) = true)) :
    is_bullish_traced daily hourly minute = (false, ⟨1, 0, 0⟩) := by
  rcases daily with e | d
  · rfl
  · rcases hfail d rfl with hnil | hshort | hgate
    · subst hnil
      rfl
    · rw [is_bullish_traced_ok_eq]
      rw [if_pos (by simp [hshort])]
    · rw [is_bullish_traced_ok_eq]
      by_cases hc : (d.isEmpty || decide (d.length < 100)) = true
      · rw [if_pos hc]
      · rw [if_neg hc]
        cases hG : (macd (closes d)).getLast? with
        | none => rfl
        | some v =>
          rw [if_pos (by
            cases hA : is_above_cloud d <;> cases hB : macd_cross (closes d) <;> simp_all)]

/-- Witness for C4: an empty daily frame; the counters stay at (1, 0, 0). -/
theorem C4_short_circuit_fetch_counts_witness :
    is_bullish_traced (Except.ok []) (Except.ok []) (Except.ok []) = (false, ⟨1, 0, 0⟩) :=
  C4_short_circuit_fetch_counts (Except.ok []) (Except.ok []) (Except.ok [])
    (fun d hd => Or.inl (by injection hd with h; exact h.symm))

/-- The latest MACD value of a non-empty series is always defined. -/
theorem macd_last_isSome (s : List Bar) (h : s ≠ []) :
    ((macd (closes s)).getLast?).isSome = true := by
  rw [List.getLast?_isSome]
  intro hnil
  apply h
  have hlen := congrArg List.length hnil
  rw [macd_length, closes_length] at hlen
  simpa using hlen

/-- The pipeline with the `pd.isna(MACD.iloc[-1])` disqualification branch
removed; per C10 it always agrees with `is_bullish`. -/
def is_bullish_noCheck (daily hourly minute : Except Unit (List Bar)) : Bool :=
  match daily with
  | Except.error _ => false
  | Except.ok d =>
    if d.isEmpty || d.length < 100 then false
    else
      if !(is_above_cloud d && macd_cross (closes d)) then false
      else
        match hourly, minute with
        | Except.ok h, Except.ok m =>
          if h.isEmpty || m.isEmpty then false
          else is_above_cloud h && is_above_cloud m
        | _, _ => false

/-- Unfolding equation of `is_bullish` on a successful daily fetch. -/
theorem is_bullish_ok_eq (d : List Bar) (hourly minute : Except Unit (List Bar)) :
    is_bullish (Except.ok d) hourly minute =
      if (d.isEmpty || decide (d.length < 100)) = true then false
      else
        match (macd (closes d)).getLast? with
        | none => false
        | some _ =>
          if (!(is_above_cloud d && macd_cross (closes d))) = true then false
          else
            match hourly, minute with
            | Except.ok h, Except.ok m =>
              if (h.isEmpty || m.isEmpty) = true then false
              else is_above_cloud h && is_above_cloud m
            | _, _ => false := rfl

/-- Unfolding equation of `is_bullish_noCheck` on a successful daily fetch. -/
theorem is_bullish_noCheck_ok_eq (d : List Bar) (hourly minute : Except Unit (List Bar)) :
    is_bullish_noCheck (Except.ok d) hourly minute =
      if (d.isEmpty || decide (d.length < 100)) = true then false
      else
        if (!(is_above_cloud d && macd_cross (closes d))) = true then false
        else
          match hourly, minute with
          | Except.ok h, Except.ok m =>
            if (h.isEmpty || m.isEmpty) = true then false
            else is_above_cloud h && is_above_cloud m
          | _, _ => false := rfl

/-- C10 (implicit): with `adjust=False` smoothing seeded by the first close,
every non-empty series has a defined latest oscillator value, so the
pipeline's `isna`-disqualification branch is unreachable: the pipeline equals
its branch-free variant on all inputs. -/
theorem C10_oscillator_branch_unreachable (s : List Bar)
    (daily hourly minute : Except Unit (List Bar)) :
    (s ≠ [] → ((macd (closes s)).getLast?).isSome = true)
    ∧ is_bullish daily hourly minute = is_bullish_noCheck daily hourly minute := by
  constructor
  · exact macd_last_isSome s
  · rcases daily with e | d
    · rfl
    · rw [is_bullish_ok_eq, is_bullish_noCheck_ok_eq]
      by_cases hcond : (d.isEmpty || decide (d.length < 100)) = true
      · rw [if_pos hcond, if_pos hcond]
      · rw [if_neg hcond, if_neg hcond]
        have hdne : d ≠ [] := by
          intro hnil
          apply hcond
          rw [hnil]
          simp
        cases hG : (macd (closes d)).getLast? with
        | none =>
          have := macd_last_isSome d hdne
          rw [hG] at this
          exact absurd this (by simp)
        | some v => rfl

/-- Witness for C10: a one-bar series has a defined latest oscillator, and the
pipeline agrees with its branch-free variant on a concrete input. -/
theorem C10_oscillator_branch_unreachable_witness :
    ((macd (closes [constBar 1])).getLast?).isSome = true
    ∧ is_bullish (Except.ok []) (Except.ok []) (Except.ok [])
        = is_bullish_noCheck (Except.ok []) (Except.ok []) (Except.ok []) :=
  ⟨(C10_oscillator_branch_unreachable [constBar 1]
      (Except.ok []) (Except.ok []) (Except.ok [])).1 (by simp),
   (C10_oscillator_branch_unreachable [constBar 1]
      (Except.ok []) (Except.ok []) (Except.ok [])).2⟩

/-! ### The scan coordinator: sorting and permutation plumbing -/

theorem strLe_trans (a b c : String) (h1 : strLe a b = true) (h2 : strLe b c = true) :
    strLe a c = true := by
  simp only [strLe, decide_eq_true_eq] at *
  exact le_trans h1 h2

theorem strLe_total (a b : String) : (strLe a b || strLe b a) = true := by
  simp only [strLe, Bool.or_eq_true, decide_eq_true_eq]
  exact le_total a b

theorem sorted_mergeSort_strLe (l : List String) :
    List.Sorted (fun a b : String => a ≤ b) (l.mergeSort strLe) := by
  have hp := @List.sorted_mergeSort String strLe
    (fun a b c => strLe_trans a b c) (fun a b => strLe_total a b) l
  exact hp.imp (fun h => by simpa [strLe] using h)

theorem mergeSort_eq_of_perm (l₁ l₂ : List String) (hp : l₁.Perm l₂) :
    l₁.mergeSort strLe = l₂.mergeSort strLe := by
  haveI : IsAntisymm String (fun a b : String => a ≤ b) := ⟨fun a b => le_antisymm⟩
  refine List.eq_of_perm_of_sorted ?_ (sorted_mergeSort_strLe l₁) (sorted_mergeSort_strLe l₂)
  exact ((List.mergeSort_perm l₁ strLe).trans hp).trans (List.mergeSort_perm l₂ strLe).symm

theorem mergeSort_filter_comm (p : String → Bool) (l : List String) :
    (l.mergeSort strLe).filter p = (l.filter p).mergeSort strLe := by
  haveI : IsAntisymm String (fun a b : String => a ≤ b) := ⟨fun a b => le_antisymm⟩
  refine List.eq_of_perm_of_sorted ?_ ?_ (sorted_mergeSort_strLe _)
  · exact ((List.mergeSort_perm l strLe).filter p).trans (List.mergeSort_perm _ strLe).symm
  · exact (sorted_mergeSort_strLe l).filter p

/-- C5: the scan result is permutation-invariant in the ticker universe; its
qualifying list is exactly the tickers on which the pipeline qualifies, sorted
lexicographically, its count is that list's length, its total the universe
size; and changing the provider data of one ticker never changes the
membership of any other ticker in the result. -/
theorem C5_scan_coordinator (fD fH fM : String → Except Unit (List Bar))
    (tickers : List String) :
    (∀ other : List String, tickers.Perm other →
        screen fD fH fM tickers = screen fD fH fM other)
    ∧ (∀ s, s ∈ (screen fD fH fM tickers).bullish_stocks
        ↔ s ∈ tickers ∧ is_bullish (fD s) (fH s) (fM s) = true)
    ∧ List.Sorted (fun a b : String => a ≤ b) (screen fD fH fM tickers).bullish_stocks
    ∧ (screen fD fH fM tickers).count = (screen fD fH fM tickers).bullish_stocks.length
    ∧ (screen fD fH fM tickers).total_scanned = tickers.length
    ∧ (∀ gD gH gM (t : String),
        (∀ s, s ≠ t → is_bullish (fD s) (fH s) (fM s) = is_bullish (gD s) (gH s) (gM s)) →
        (screen fD fH fM tickers).bullish_stocks.filter (fun s => decide (s ≠ t))
          = (screen gD gH gM tickers).bullish_stocks.filter (fun s => decide (s ≠ t))) := by
  refine ⟨?_, ?_, ?_, rfl, rfl, ?_⟩
  · intro other hp
    have hb := mergeSort_eq_of_perm _ _
      (hp.filter (fun t => is_bullish (fD t) (fH t) (fM t)))
    simp only [screen, hb, hp.length_eq]
  · intro s
    simp [screen, List.mem_mergeSort, List.mem_filter]
  · exact sorted_mergeSort_strLe _
  · intro gD gH gM t hagree
    show ((tickers.filter _).mergeSort strLe).filter _
        = ((tickers.filter _).mergeSort strLe).filter _
    rw [mergeSort_filter_comm, mergeSort_filter_comm, List.filter_filter, List.filter_filter]
    congr 1
    apply List.filter_congr
    intro a _
    by_cases hat : a = t
    · subst hat
      simp
    · rw [hagree a hat]

/-- Witness for C5: a two-ticker universe in reversed order, all fetches
failing; the scan results coincide. -/
theorem C5_scan_coordinator_witness :
    screen (fun _ => Except.error ()) (fun _ => Except.error ()) (fun _ => Except.error ())
        ["BBB", "AAA"]
      = screen (fun _ => Except.error ()) (fun _ => Except.error ()) (fun _ => Except.error ())
        ["AAA", "BBB"] :=
  (C5_scan_coordinator (fun _ => Except.error ()) (fun _ => Except.error ())
    (fun _ => Except.error ()) ["BBB", "AAA"]).1 ["AAA", "BBB"]
    (List.Perm.swap "AAA" "BBB" [])

/-! ### The momentum cross bar by bar -/

/-- The cross test the pipeline would compute had the series ended after its
first `k` bars (causality of `ewm` makes this the cross "at bar `k`"). -/
def cross_at (cl : List ℚ) (k : Nat) : Bool := macd_cross (cl.take k)

theorem ewmFrom_take (xs : List ℚ) (a : ℚ) : ∀ (p : ℚ) (k : Nat),
    ewmFrom a p (xs.take k) = (ewmFrom a p xs).take k := by
  induction xs with
  | nil => intro p k; simp [ewmFrom]
  | cons x rest ih =>
    intro p k
    cases k with
    | zero => rfl
    | succ k => rw [List.take_succ_cons, ewmFrom, ewmFrom, List.take_succ_cons, ih]

theorem ewm_take (span : Nat) (xs : List ℚ) (k : Nat) :
    ewm span (xs.take k) = (ewm span xs).take k := by
  cases xs with
  | nil => simp [ewm]
  | cons x rest =>
    cases k with
    | zero => rfl
    | succ k => rw [List.take_succ_cons, ewm, ewm, List.take_succ_cons, ewmFrom_take]

theorem macd_take (cl : List ℚ) (k : Nat) : macd (cl.take k) = (macd cl).take k := by
  rw [macd, macd, ewm_take, ewm_take, List.take_zipWith]

theorem macdSignal_take (cl : List ℚ) (k : Nat) :
    macdSignal (cl.take k) = (macdSignal cl).take k := by
  rw [macdSignal, macdSignal, macd_take, ewm_take]

theorem last2_eq_none (xs : List ℚ) (h : xs.length < 2) : last2 xs = none := by
  unfold last2
  cases hr : xs.reverse with
  | nil => rfl
  | cons a t =>
    cases t with
    | nil => rfl
    | cons b t' =>
      exfalso
      have hlen := congrArg List.length hr
      simp at hlen
      omega

theorem last2_eq_getD (xs : List ℚ) (h : 2 ≤ xs.length) :
    last2 xs = some (xs.getD (xs.length - 2) 0, xs.getD (xs.length - 1) 0) := by
  unfold last2
  cases hr : xs.reverse with
  | nil =>
    exfalso
    have hlen := congrArg List.length hr
    rw [List.length_reverse, List.length_nil] at hlen
    omega
  | cons a t =>
    cases t with
    | nil =>
      exfalso
      have hlen := congrArg List.length hr
      rw [List.length_reverse, List.length_cons, List.length_nil] at hlen
      omega
    | cons b t' =>
      have ha : xs.reverse[0]? = some a := by rw [hr]; rfl
      have hb : xs.reverse[1]? = some b := by rw [hr]; simp
      rw [List.getElem?_reverse (by omega)] at ha
      rw [List.getElem?_reverse (by omega)] at hb
      have ha' : xs.getD (xs.length - 1) 0 = a := by
        rw [List.getD_eq_getElem?_getD, show xs.length - 1 = xs.length - 1 - 0 by omega, ha]
        rfl
      have hb' : xs.getD (xs.length - 2) 0 = b := by
        rw [List.getD_eq_getElem?_getD, show xs.length - 2 = xs.length - 1 - 1 by omega, hb]
        rfl
      rw [ha', hb']

theorem cross_at_short (cl : List ℚ) (k : Nat) (h : k < 2) : cross_at cl k = false := by
  unfold cross_at macd_cross
  rw [last2_eq_none (macd (cl.take k)) (by rw [macd_length]; simp [List.length_take]; omega)]

theorem cross_at_eq (cl : List ℚ) (k : Nat) (h2 : 2 ≤ k) (hk : k ≤ cl.length) :
    cross_at cl k =
      (decide ((macd cl).getD (k - 2) 0 ≤ (macdSignal cl).getD (k - 2) 0)
        && decide ((macdSignal cl).getD (k - 1) 0 < (macd cl).getD (k - 1) 0)) := by
  unfold cross_at macd_cross
  rw [macd_take, macdSignal_take]
  have hlm : ((macd cl).take k).length = k := by
    rw [List.length_take, macd_length]
    omega
  have hls : ((macdSignal cl).take k).length = k := by
    rw [List.length_take, macdSignal_length]
    omega
  rw [last2_eq_getD _ (by omega : 2 ≤ ((macd cl).take k).length),
    last2_eq_getD _ (by omega : 2 ≤ ((macdSignal cl).take k).length)]
  rw [hlm, hls]
  have htake : ∀ (l : List ℚ) (i : Nat), i < k → (l.take k).getD i 0 = l.getD i 0 := by
    intro l i hik
    rw [List.getD_eq_getElem?_getD, List.getD_eq_getElem?_getD, List.getElem?_take,
      if_pos hik]
  rw [htake _ _ (by omega), htake _ _ (by omega), htake _ _ (by omega), htake _ _ (by omega)]

/-- Exponential smoothing lags a nondecreasing input strictly once seeded
strictly below the next input value. -/
theorem ewmFrom_lag (a : ℚ) (h0 : 0 < a) (h1 : a < 1) :
    ∀ (xs : List ℚ) (sp : ℚ), List.Chain' (fun p q => p ≤ q) xs →
      (xs ≠ [] → sp < xs.getD 0 0) →
      ∀ i, i < xs.length → (ewmFrom a sp xs).getD i 0 < xs.getD i 0 := by
  intro xs
  induction xs with
  | nil =>
    intro sp _ _ i hi
    simp at hi
  | cons x rest ih =>
    intro sp hchain hhead i hi
    have hspx : sp < x := by
      have := hhead (by simp)
      rwa [List.getD_cons_zero] at this
    have hyx : (1 - a) * sp + a * x < x := by
      have hmul := mul_lt_mul_of_pos_left hspx (by linarith : (0:ℚ) < 1 - a)
      linarith
    cases i with
    | zero =>
      rw [ewmFrom, List.getD_cons_zero, List.getD_cons_zero]
      exact hyx
    | succ j =>
      rw [ewmFrom, List.getD_cons_succ, List.getD_cons_succ]
      refine ih ((1 - a) * sp + a * x) hchain.tail ?_ j (by simpa using hi)
      intro hne
      cases rest with
      | nil => exact absurd rfl hne
      | cons r t =>
        rw [List.getD_cons_zero]
        have hxr : x ≤ r := (List.chain'_cons.mp hchain).1
        linarith

/-- After the seed bar, the smoothed line of a nondecreasing series that
strictly rises on its first transition stays strictly below the series. -/
theorem ewm_lag (span : Nat) (hsp : 2 ≤ span) (m : List ℚ)
    (hchain : List.Chain' (fun p q => p ≤ q) m)
    (h01 : m.getD 0 0 < m.getD 1 0) :
    ∀ i, 1 ≤ i → i < m.length → (ewm span m).getD i 0 < m.getD i 0 := by
  have hcast : (2:ℚ) ≤ (span : ℚ) := by exact_mod_cast hsp
  have h0 : 0 < (2:ℚ) / ((span : ℚ) + 1) := by positivity
  have h1 : (2:ℚ) / ((span : ℚ) + 1) < 1 := by
    rw [div_lt_one (by positivity)]
    linarith
  cases m with
  | nil =>
    intro i _ hi
    simp at hi
  | cons x rest =>
    intro i hi hilen
    obtain ⟨j, hj⟩ : ∃ j, i = j + 1 := ⟨i - 1, by omega⟩
    subst hj
    rw [show ewm span (x :: rest) = x :: ewmFrom (2 / ((span : ℚ) + 1)) x rest from rfl,
      List.getD_cons_succ, List.getD_cons_succ]
    refine ewmFrom_lag _ h0 h1 rest x hchain.tail ?_ j (by simpa using hilen)
    intro hne
    cases rest with
    | nil => exact absurd rfl hne
    | cons r t =>
      rw [List.getD_cons_zero]
      have := h01
      rw [List.getD_cons_zero, List.getD_cons_succ, List.getD_cons_zero] at this
      exact this

/-- The smoothed line starts at the seed value. -/
theorem ewm_getD_zero (span : Nat) (m : List ℚ) :
    (ewm span m).getD 0 0 = m.getD 0 0 := by
  cases m with
  | nil => rfl
  | cons x rest => rfl

/-- C6: the momentum-cross signal is true iff the oscillator two bars ago is
at most its signal line and the latest oscillator strictly exceeds the latest
signal; and for a nondecreasing (increasing-then-flattening) oscillator that
strictly rises on its first transition — a crossover from below on a single
bar transition, the signal being seeded equal to the oscillator — the cross
fires at exactly one bar of the history and at no other. -/
theorem C6_momentum_cross (cl : List ℚ) :
    (∀ p q, last2 (macd cl) = some p → last2 (macdSignal cl) = some q →
        (macd_cross cl = true ↔ p.1 ≤ q.1 ∧ q.2 < p.2))
    ∧ (2 ≤ cl.length →
        List.Chain' (fun x y => x ≤ y) (macd cl) →
        (macd cl).getD 0 0 < (macd cl).getD 1 0 →
        ∀ k, k ≤ cl.length → (cross_at cl k = true ↔ k = 2)) := by
  constructor
  · intro p q hp hq
    unfold macd_cross
    rw [hp, hq]
    simp
  · intro hlen hchain h01 k hk
    have hmlen : (macd cl).length = cl.length := macd_length cl
    by_cases hk2 : k < 2
    · rw [cross_at_short cl k hk2]
      constructor
      · intro hfalse
        exact absurd hfalse (by simp)
      · intro hke
        omega
    · push_neg at hk2
      rw [cross_at_eq cl k hk2 hk]
      rcases Nat.lt_or_ge k 3 with hk3 | hk3
      · have hke : k = 2 := by omega
        subst hke
        have hseed : (macdSignal cl).getD 0 0 = (macd cl).getD 0 0 := ewm_getD_zero 9 (macd cl)
        have hlag : (macdSignal cl).getD 1 0 < (macd cl).getD 1 0 := by
          exact ewm_lag 9 (by omega) (macd cl) hchain h01 1 (by omega) (by omega)
        simp only [show (2:Nat) - 2 = 0 from rfl, show (2:Nat) - 1 = 1 from rfl]
        rw [hseed]
        have hd1 : decide ((macd cl).getD 0 0 ≤ (macd cl).getD 0 0) = true := by simp
        have hd2 : decide ((macdSignal cl).getD 1 0 < (macd cl).getD 1 0) = true := by
          simpa using hlag
        rw [hd1, hd2]
        simp
      · have hlag2 : (macdSignal cl).getD (k - 2) 0 < (macd cl).getD (k - 2) 0 := by
          exact ewm_lag 9 (by omega) (macd cl) hchain h01 (k - 2) (by omega) (by omega)
        have hfirst : ¬ ((macd cl).getD (k - 2) 0 ≤ (macdSignal cl).getD (k - 2) 0) := by
          linarith
        constructor
        · intro htrue
          rw [Bool.and_eq_true] at htrue
          exact absurd (by simpa using htrue.1) hfirst
        · intro hke
          omega

/-- Witness for C6: on the two-bar close series 0, 351 the oscillator is
0, 28 — nondecreasing with a strict first rise — and the cross fires at
bar 2 of the history. -/
theorem C6_momentum_cross_witness : cross_at [(0:ℚ), 351] 2 = true ↔ 2 = 2 := by
  have hm : macd [(0:ℚ), 351] = [0, 28] := by
    norm_num [macd, ewm, ewmFrom]
  exact (C6_momentum_cross [(0:ℚ), 351]).2 (by norm_num)
    (by rw [hm]; norm_num [List.chain'_cons])
    (by rw [hm]; norm_num [List.getD_cons_zero, List.getD_cons_succ])
    2 (by norm_num)

/-- Counterexample to C7 as stated: on a flat 78-bar series (length
`window + displacement` with the 52-bar leading-span-B window), the latest
position — which lies among the most recent `displacement` positions — has a
DEFINED leading-span B value, while positions 52 (0-based `window`) and 51
(1-based `window`) are undefined: `shift(26)` pads NaN at the start of the
frame, not at its end. -/
theorem C7_leading_span_displacement_counterexample :
    (constSeries (52 + 26) 5).length = 52 + 26
    ∧ (senkouB (constSeries (52 + 26) 5)).getD 77 none = some 5
    ∧ (senkouB (constSeries (52 + 26) 5)).getD 52 none = none
    ∧ (senkouB (constSeries (52 + 26) 5)).getD 51 none = none := by
  refine ⟨by simp [constSeries], ?_, ?_, ?_⟩
  all_goals
    rw [senkouB_constSeries, List.getD_eq_getElem?_getD, List.getElem?_map,
      List.getElem?_range (by omega)]
    rfl

/-- C7 (amended): `shift(26)` displaces the mid-values toward the most recent
rows and pads the START of the frame with undefined values; hence on a series
of exactly length `window + displacement` the leading span is undefined at
every position before the last and becomes defined exactly at the final
position (index `window + displacement - 1`), for span B (window 52) and
span A (window 26, its binding base-line window) alike. -/
theorem C7_leading_span_displacement (s : List Bar) :
    (s.length = 52 + 26 →
      (∀ i, i < 77 → (senkouB s).getD i none = none)
      ∧ (senkouB s).getD 77 none ≠ none)
    ∧ (s.length = 26 + 26 →
      (∀ i, i < 51 → (senkouA s).getD i none = none)
      ∧ (senkouA s).getD 51 none ≠ none) := by
  constructor
  · intro hlen
    constructor
    · intro i hi
      rw [List.getD_eq_getElem?_getD, senkouB_getElem?_undefined s i (by omega) hi]
      rfl
    · obtain ⟨q, hq⟩ := senkouB_getElem?_defined s 77 (by omega) (by omega)
      rw [List.getD_eq_getElem?_getD, hq]
      simp
  · intro hlen
    constructor
    · intro i hi
      rw [List.getD_eq_getElem?_getD, senkouA_getElem?_undefined s i (by omega) hi]
      rfl
    · obtain ⟨q, hq⟩ := senkouA_getElem?_defined s 51 (by omega) (by omega)
      rw [List.getD_eq_getElem?_getD, hq]
      simp

/-- Witness for the amended C7 at flat series of lengths 78 and 52. -/
theorem C7_leading_span_displacement_witness :
    ((∀ i, i < 77 → (senkouB (constSeries 78 5)).getD i none = none)
      ∧ (senkouB (constSeries 78 5)).getD 77 none ≠ none)
    ∧ ((∀ i, i < 51 → (senkouA (constSeries 52 5)).getD i none = none)
      ∧ (senkouA (constSeries 52 5)).getD 51 none ≠ none) :=
  ⟨(C7_leading_span_displacement (constSeries 78 5)).1 (by simp [constSeries]),
   (C7_leading_span_displacement (constSeries 52 5)).2 (by simp [constSeries])⟩
